import Mathlib

/-!
# Verification of `cmd/buildctl/build.go` (buildkit build invocation)

This file shallowly embeds the option-parsing, output-resolution and
status fan-out logic of `src/cmd/buildctl/build.go` and proves the
specification claims about it.

Conventions:
* Go functions returning `(T, error)` become `GoResult T`; a Go runtime
  panic (e.g. out-of-range slice index) is the `crash` constructor,
  distinct from a returned `error`.
* Go `map[string]string` is modelled as an association list with
  overwrite-on-insert (`mapInsert`), so duplicate keys behave
  last-write-wins exactly as in Go.
* Go's `encoding/csv` `Reader.Read` (default configuration: comma
  separator, double-quote quoting, `LazyQuotes=false`, no trimming) is
  modelled by `csvRead`, including blank-line skipping, `\r\n`
  normalization, quoted fields and the bare-quote / stray-quote errors.
-/

/-- Outcome of a Go call: a value, a returned `error`, or a runtime panic. -/
inductive GoResult (α : Type) where
  | ok : α → GoResult α
  | error : String → GoResult α
  | crash : String → GoResult α
  deriving DecidableEq, Repr

/-- Index of the first occurrence of `c`, as Go `bytes.IndexByte` / `IndexRune`. -/
def charIdx (c : Char) : List Char → Option Nat
  | [] => none
  | a :: rest => if a == c then some 0 else (charIdx c rest).map (· + 1)

/-- `listStartsWith s pat` : `pat` is a prefix of `s`. -/
def listStartsWith : List Char → List Char → Bool
  | _, [] => true
  | [], _ :: _ => false
  | a :: as, b :: bs => a == b && listStartsWith as bs

/-- `listContainsSub s pat` : `pat` occurs as a contiguous substring of `s`. -/
def listContainsSub : List Char → List Char → Bool
  | [], pat => pat.isEmpty
  | a :: rest, pat => listStartsWith (a :: rest) pat || listContainsSub rest pat

/-- Go `strings.Contains s pat`. -/
def strContains (s pat : String) : Bool :=
  listContainsSub s.data pat.data

/-- Go `strings.SplitN s "=" 2`: split at the first `=` only. -/
def splitN2Eq (s : String) : List String :=
  match charIdx '=' s.data with
  | none => [s]
  | some i => [(s.data.take i).asString, (s.data.drop (i + 1)).asString]

/-- The ASCII fragment of Go `strings.ToLower`: `A`–`Z` are folded and
every other character is left unchanged. Go's full Unicode simple case
mapping additionally folds a few non-ASCII letters into ASCII (U+0130
to `i`, U+212A to `k`), so theorems that quantify over arbitrary keys
restrict them to ASCII strings (`asciiStr`), on which this function and
`strings.ToLower` coincide exactly. -/
def goToLower (s : String) : String :=
  ⟨s.data.map (fun c => if 'A' ≤ c ∧ c ≤ 'Z' then Char.ofNat (c.toNat + 32) else c)⟩

/-- Every character is ASCII: the fragment on which `goToLower` is
exactly Go `strings.ToLower`. -/
def asciiStr (s : String) : Bool := s.data.all (fun c => c.toNat < 128)

/-! ## Go `encoding/csv`, default `Reader`, first `Read` -/

/-- Error cases of `csv.Reader.Read` relevant here. -/
inductive CsvErr where
  | eof
  | bareQuote
  | quote
  deriving DecidableEq, Repr

/-- The Go error message each `CsvErr` carries. -/
def csvErrMsg : CsvErr → String
  | CsvErr.eof => "EOF"
  | CsvErr.bareQuote => "bare double-quote in non-quoted-field"
  | CsvErr.quote => "extraneous or missing double-quote in quoted-field"

/-- Go csv `lengthNL`: 1 when the line ends in a newline, else 0. -/
def lengthNL (line : List Char) : Nat :=
  match line.getLast? with
  | some c => if c = '\n' then 1 else 0
  | none => 0

/-- Split off one line, keeping its trailing newline; remainder second. -/
def readLineAux : List Char → List Char × List Char
  | [] => ([], [])
  | c :: rest =>
    if c = '\n' then ([c], rest)
    else
      let p := readLineAux rest
      (c :: p.1, p.2)

/-- Normalize a trailing `\r\n` into `\n`, as Go csv `readLine` does. -/
def normNL (l : List Char) : List Char :=
  if l.length ≥ 2 ∧ l.getLast? = some '\n' ∧ l.dropLast.getLast? = some '\r'
  then l.dropLast.dropLast ++ ['\n'] else l

/-- Go csv `readLine`: `none` at end of input, else the next line and
the rest. A line ending at end of input with a bare `\r` has that `\r`
dropped (Go: drop trailing `\r` before EOF, for backwards
compatibility), then a trailing `\r\n` is normalized to `\n`. -/
def readLine (s : List Char) : Option (List Char × List Char) :=
  match s with
  | [] => none
  | _ :: _ =>
    let p := readLineAux s
    let l := if p.2 = [] ∧ p.1.getLast? = some '\r' then p.1.dropLast else p.1
    some (normNL l, p.2)

/-- Skip blank lines before the record, as Go csv `readRecord` does. -/
def csvSkipBlank : Nat → List Char → Option (List Char × List Char)
  | 0, _ => none
  | fuel + 1, s =>
    match readLine s with
    | none => none
    | some (l, r) => if l.length = lengthNL l then csvSkipBlank fuel r else some (l, r)

/-- Parsing state: at the start of a field, or inside a quoted field
with the accumulated field contents. -/
inductive CsvMode where
  | field : CsvMode
  | quoted : List Char → CsvMode

/-- The `parseField` loop of Go csv `readRecord` (fuel-indexed; every
non-terminating step consumes at least one input character, so any fuel
of at least `2 * length + 8` gives Go's behaviour). -/
def csvLoop : Nat → CsvMode → List Char → List Char → List String → Except CsvErr (List String)
  | 0, _, _, _, _ => Except.error CsvErr.quote
  | fuel + 1, CsvMode.field, line, rest, record =>
    if line.headD ' ' = '"' then
      csvLoop fuel (CsvMode.quoted []) line.tail rest record
    else
      match charIdx ',' line with
      | some i =>
        let f := line.take i
        if f.contains '"' then Except.error CsvErr.bareQuote
        else csvLoop fuel CsvMode.field (line.drop (i + 1)) rest (record ++ [f.asString])
      | none =>
        let f := line.take (line.length - lengthNL line)
        if f.contains '"' then Except.error CsvErr.bareQuote
        else Except.ok (record ++ [f.asString])
  | fuel + 1, CsvMode.quoted acc, line, rest, record =>
    match charIdx '"' line with
    | some i =>
      let acc' := acc ++ line.take i
      match line.drop (i + 1) with
      | '"' :: l => csvLoop fuel (CsvMode.quoted (acc' ++ ['"'])) l rest record
      | ',' :: l => csvLoop fuel CsvMode.field l rest (record ++ [acc'.asString])
      | l =>
        if l.length = lengthNL l then Except.ok (record ++ [acc'.asString])
        else Except.error CsvErr.quote
    | none =>
      if line.isEmpty then Except.error CsvErr.quote
      else
        match readLine rest with
        | some (l, r) => csvLoop fuel (CsvMode.quoted (acc ++ line)) l r record
        | none => Except.error CsvErr.quote

/-- Go `csv.NewReader(strings.NewReader s).Read()` with default settings. -/
def csvRead (s : String) : Except CsvErr (List String) :=
  match csvSkipBlank (s.length + 1) s.data with
  | none => Except.error CsvErr.eof
  | some (l, rest) => csvLoop (2 * s.length + 8) CsvMode.field l rest []

example : csvRead "a,b" = Except.ok ["a", "b"] := by rfl
example : csvRead "" = Except.error CsvErr.eof := by rfl
example : csvRead "a,,b" = Except.ok ["a", "", "b"] := by rfl
example : csvRead "type=registry,ref=x" = Except.ok ["type=registry", "ref=x"] := by rfl
example : csvRead "\x22a,b\x22,c" = Except.ok ["a,b", "c"] := by rfl
example : csvRead "a\x22b" = Except.error CsvErr.bareQuote := by rfl
example : csvRead "\x22ab" = Except.error CsvErr.quote := by rfl
example : csvRead "a\nb" = Except.ok ["a"] := by rfl
example : csvRead "\n\na,b" = Except.ok ["a", "b"] := by rfl
example : csvRead "a,b\r" = Except.ok ["a", "b"] := by rfl
example : csvRead "a\r,b" = Except.ok ["a\r", "b"] := by rfl
example : csvRead "a,b\r\n" = Except.ok ["a", "b"] := by rfl
example : csvRead "\r" = Except.error CsvErr.eof := by rfl
example : splitN2Eq "a=b=c" = ["a", "b=c"] := by decide
example : splitN2Eq "abc" = ["abc"] := by decide
example : goToLower "TyPe" = "type" := by decide
example : strContains "ref=x,type=y" "type=" = true := by decide
example : strContains "TYPE=y" "type=" = false := by decide

/-! ## Go `map[string]string` as an association list with overwrite -/

/-- Go map assignment `m[k] = v`: overwrite the binding if present, else add it. -/
def mapInsert (m : List (String × String)) (k v : String) : List (String × String) :=
  if m.any (fun p => p.1 == k) then m.map (fun p => if p.1 == k then (k, v) else p)
  else m ++ [(k, v)]

/-- Go map membership test `_, ok := m[k]`. -/
def mapContains (m : List (String × String)) (k : String) : Bool :=
  m.any (fun p => p.1 == k)

/-- Go map read `m[k]` as an `Option` (Go yields the zero value `""` when absent). -/
def mapLookup (m : List (String × String)) (k : String) : Option String :=
  (m.find? (fun p => p.1 == k)).map Prod.snd

/-- Go `delete(m, k)`. -/
def mapDelete (m : List (String × String)) (k : String) : List (String × String) :=
  m.filter (fun p => !(p.1 == k))

/-! ## Data model -/

/-- `client.CacheOptionsEntry` (`Type` is spelled `Type_`, a Lean keyword). -/
structure CacheOptionsEntry where
  Type_ : String
  Attrs : List (String × String)
  deriving DecidableEq, Repr

/-- `secretsprovider.FileSource` (the two fields this program populates). -/
structure FileSource where
  ID : String
  FilePath : String
  deriving DecidableEq, Repr

/-! ## Cache option CSV parsing (`parseExportCacheCSV`, `parseImportCacheCSV`) -/

/-- One iteration of the field loop shared by `parseExportCacheCSV` and
`parseImportCacheCSV`: `parts := strings.SplitN(field, "=", 2)`,
`key := strings.ToLower(parts[0])`, then `value := parts[1]` — which
panics (out-of-range index) when the field has no `=`. -/
def cacheEntryField (e : CacheOptionsEntry) (field : String) : GoResult CacheOptionsEntry :=
  let parts := splitN2Eq field
  let key := goToLower (parts.headD "")
  match parts.get? 1 with
  | none => GoResult.crash "runtime error: index out of range"
  | some value =>
    if key == "type" then GoResult.ok { e with Type_ := value }
    else GoResult.ok { e with Attrs := mapInsert e.Attrs key value }

/-- The `for _, field := range fields` loop of the cache CSV parsers. -/
def cacheEntryFields (e : CacheOptionsEntry) : List String → GoResult CacheOptionsEntry
  | [] => GoResult.ok e
  | f :: fs =>
    match cacheEntryField e f with
    | GoResult.ok e' => cacheEntryFields e' fs
    | GoResult.error m => GoResult.error m
    | GoResult.crash m => GoResult.crash m

/-- `parseExportCacheCSV` from `build.go`. -/
def parseExportCacheCSV (s : String) : GoResult CacheOptionsEntry :=
  match csvRead s with
  | Except.error e => GoResult.error (csvErrMsg e)
  | Except.ok fields =>
    match cacheEntryFields ⟨"", []⟩ fields with
    | GoResult.ok ex =>
      if ex.Type_ == "" then GoResult.error "--export-cache requires type=<type>"
      else if mapContains ex.Attrs "mode" then GoResult.ok ex
      else GoResult.ok { ex with Attrs := mapInsert ex.Attrs "mode" "min" }
    | GoResult.error m => GoResult.error m
    | GoResult.crash m => GoResult.crash m

/-- `parseImportCacheCSV` from `build.go`. -/
def parseImportCacheCSV (s : String) : GoResult CacheOptionsEntry :=
  match csvRead s with
  | Except.error e => GoResult.error (csvErrMsg e)
  | Except.ok fields =>
    match cacheEntryFields ⟨"", []⟩ fields with
    | GoResult.ok im =>
      if im.Type_ == "" then GoResult.error "--import-cache requires type=<type>"
      else GoResult.ok im
    | GoResult.error m => GoResult.error m
    | GoResult.crash m => GoResult.crash m

/-! ## `attrMap` and `parseExportCache` -/

/-- The loop of `attrMap`, threading the map being built. -/
def attrMapLoop (m : List (String × String)) : List String → GoResult (List (String × String))
  | [] => GoResult.ok m
  | v :: rest =>
    let parts := splitN2Eq v
    if parts.length != 2 then GoResult.error ("invalid value " ++ v)
    else attrMapLoop (mapInsert m (parts.headD "") (parts.getD 1 "")) rest

/-- `attrMap` from `build.go`: each string must contain a `=`; later
duplicate keys overwrite earlier ones. -/
def attrMap (sl : List String) : GoResult (List (String × String)) :=
  attrMapLoop [] sl

/-- The deprecation warning `parseExportCache` logs for a legacy spec. -/
def exportCacheDeprecationWarning : String :=
  "--export-cache <ref> --export-cache-opt <opt>=<optval> is deprecated. Please use --export-cache type=registry,ref=<ref>,<opt>=<optval>[,<opt>=<optval>] instead."

/-- The `for _, exportCache := range exportCaches` loop of `parseExportCache`.
First component: warnings logged (in order); second: the Go return value. -/
def parseExportCacheLoop (legacyOpts : List String) : List String → List String × GoResult (List CacheOptionsEntry)
  | [] => ([], GoResult.ok [])
  | ec :: rest =>
    if strContains ec "type=" then
      if legacyOpts.length > 0 then
        ([], GoResult.error "--export-cache-opt is not supported for the specified --export-cache. Please use --export-cache type=<type>,<opt>=<optval>[,<opt>=<optval>] instead.")
      else
        match parseExportCacheCSV ec with
        | GoResult.ok ex =>
          let p := parseExportCacheLoop legacyOpts rest
          (p.1, match p.2 with
                | GoResult.ok l => GoResult.ok (ex :: l)
                | r => r)
        | GoResult.error m => ([], GoResult.error m)
        | GoResult.crash m => ([], GoResult.crash m)
    else
      match attrMap legacyOpts with
      | GoResult.ok attrs =>
        let attrs1 := if mapContains attrs "mode" then attrs else mapInsert attrs "mode" "min"
        let attrs2 := mapInsert attrs1 "ref" ec
        let p := parseExportCacheLoop legacyOpts rest
        (exportCacheDeprecationWarning :: p.1,
          match p.2 with
          | GoResult.ok l => GoResult.ok (CacheOptionsEntry.mk "registry" attrs2 :: l)
          | r => r)
      | GoResult.error m => ([exportCacheDeprecationWarning], GoResult.error m)
      | GoResult.crash m => ([exportCacheDeprecationWarning], GoResult.crash m)

/-- `parseExportCache` from `build.go`, also reporting logged warnings. -/
def parseExportCache (exportCaches legacyExportCacheOpts : List String) :
    List String × GoResult (List CacheOptionsEntry) :=
  if legacyExportCacheOpts.length > 0 && exportCaches.length != 1 then
    ([], GoResult.error "--export-cache-opt requires exactly single --export-cache")
  else parseExportCacheLoop legacyExportCacheOpts exportCaches

/-! ## `parseSecret` -/

/-- One iteration of the `parseSecret` field loop. The length of
`parts` is checked before `parts[1]` is read, so a field without `=`
returns an error (it does not panic, unlike the cache CSV parsers). -/
def secretField (fs : FileSource) (field : String) : GoResult FileSource :=
  let parts := splitN2Eq field
  let key := goToLower (parts.headD "")
  if parts.length != 2 then
    GoResult.error ("invalid field " ++ field ++ " must be a key=value pair")
  else
    let value := parts.getD 1 ""
    if key == "type" then
      if value != "file" then GoResult.error ("unsupported secret type " ++ value)
      else GoResult.ok fs
    else if key == "id" then GoResult.ok { fs with ID := value }
    else if key == "source" || key == "src" then GoResult.ok { fs with FilePath := value }
    else GoResult.error ("unexpected key " ++ key ++ " in " ++ field)

/-- The `for _, field := range fields` loop of `parseSecret`. -/
def secretFields (fs : FileSource) : List String → GoResult FileSource
  | [] => GoResult.ok fs
  | f :: rest =>
    match secretField fs f with
    | GoResult.ok fs' => secretFields fs' rest
    | GoResult.error m => GoResult.error m
    | GoResult.crash m => GoResult.crash m

/-- `parseSecret` from `build.go`. -/
def parseSecret (value : String) : GoResult FileSource :=
  match csvRead value with
  | Except.error e => GoResult.error ("failed to parse csv secret: " ++ csvErrMsg e)
  | Except.ok fields => secretFields ⟨"", ""⟩ fields

example : parseSecret "type=file,id=mysecret,src=/tmp/x" = GoResult.ok ⟨"mysecret", "/tmp/x"⟩ := by rfl
example : parseSecret "type=env,id=x" = GoResult.error "unsupported secret type env" := by rfl
example : parseSecret "foo" = GoResult.error "invalid field foo must be a key=value pair" := by rfl
example : parseExportCacheCSV "type=registry,foo" = GoResult.crash "runtime error: index out of range" := by rfl
example : parseExportCacheCSV "type=registry,ref=r" =
    GoResult.ok ⟨"registry", [("ref", "r"), ("mode", "min")]⟩ := by rfl
example : parseExportCacheCSV "kind=registry" = GoResult.error "--export-cache requires type=<type>" := by rfl
example : parseExportCache ["myref"] ["a=b"] =
    ([exportCacheDeprecationWarning],
      GoResult.ok [⟨"registry", [("a", "b"), ("mode", "min"), ("ref", "myref")]⟩]) := by rfl

/-! ## `resolveExporterOutput` -/

/-- Exporter kind constants from the `client` package
(`client.ExporterLocal`, `client.ExporterOCI`, `client.ExporterDocker`). -/
def ExporterLocal : String := "local"

/-- `client.ExporterOCI`. -/
def ExporterOCI : String := "oci"

/-- `client.ExporterDocker`. -/
def ExporterDocker : String := "docker"

/-- Outcome of `os.Stat(path)` as this program inspects it. -/
inductive StatRes where
  | ok : Bool → StatRes
  | notExist : StatRes
  | otherErr : StatRes
  deriving DecidableEq, Repr

/-- The file-system / terminal environment `resolveExporterOutput`
consults: `os.Stat`, whether `os.Create` succeeds, and whether standard
output is a console (`console.ConsoleFromFile(os.Stdout)` succeeding). -/
structure OutEnv where
  stat : String → StatRes
  createOk : String → Bool
  stdoutIsConsole : Bool

/-- The `io.WriteCloser` returned by `resolveExporterOutput`: either the
file created at a path, or the process standard output stream. -/
inductive Handle where
  | file : String → Handle
  | stdout : Handle
  deriving DecidableEq, Repr

/-- `resolveExporterOutput` from `build.go`: returns at most one of a
writable handle (single file) or a directory path. -/
def resolveExporterOutput (env : OutEnv) (exporter output : String) :
    GoResult (Option Handle × String) :=
  if exporter == ExporterLocal then
    if output == "" then GoResult.error "output directory is required for local exporter"
    else GoResult.ok (none, output)
  else if exporter == ExporterOCI || exporter == ExporterDocker then
    if output != "" then
      match env.stat output with
      | StatRes.otherErr => GoResult.error ("invalid destination file: " ++ output)
      | StatRes.ok true => GoResult.error "destination file is a directory"
      | _ =>
        if env.createOk output then GoResult.ok (some (Handle.file output), "")
        else GoResult.error ("failed to create " ++ output)
    else
      if env.stdoutIsConsole then
        GoResult.error ("output file is required for " ++ exporter ++ " exporter. refusing to write to console")
      else GoResult.ok (some Handle.stdout, "")
  else
    if output != "" then
      GoResult.error ("output " ++ output ++ " is not supported by " ++ exporter ++ " exporter")
    else GoResult.ok (none, "")

/-! ## Fragments of `build` -/

/-- Lines 197–203 of `build.go`: resolve the exporter output from
`ExporterAttrs["output"]` (Go map read, zero value `""`), then delete
the `"output"` key exactly when a file handle or a directory path was
produced. Returns the handle, the directory and the updated attributes. -/
def buildExporterOutputStep (env : OutEnv) (exporter : String)
    (attrs : List (String × String)) :
    GoResult (Option Handle × String × List (String × String)) :=
  match resolveExporterOutput env exporter ((mapLookup attrs "output").getD "") with
  | GoResult.ok (w, dir) =>
    if w.isSome || dir != "" then GoResult.ok (w, dir, mapDelete attrs "output")
    else GoResult.ok (w, dir, attrs)
  | GoResult.error m => GoResult.error ("invalid exporter-opt: output: " ++ m)
  | GoResult.crash m => GoResult.crash m

/-- Lines 215–231 of `build.go`: when no frontend is given, stdin must
not be a character device and the definition read from it must be
non-empty; with a frontend, `--no-cache` only adds the `no-cache`
frontend attribute. `readResult` stands for `read(os.Stdin, ...)`
(external `llb.ReadFrom`), the definition being its list of ops. -/
def buildFrontendStep (frontend : String) (stdinIsCharDevice noCache : Bool)
    (readResult : GoResult (List Nat)) (frontendAttrs : List (String × String)) :
    GoResult (Option (List Nat) × List (String × String)) :=
  if frontend == "" then
    if stdinIsCharDevice then
      GoResult.error "please specify --frontend or pipe LLB definition to stdin"
    else
      match readResult with
      | GoResult.ok d =>
        if d.length == 0 then
          GoResult.error "empty definition sent to build. Specify --frontend instead?"
        else GoResult.ok (some d, frontendAttrs)
      | GoResult.error m => GoResult.error m
      | GoResult.crash m => GoResult.crash m
  else
    if noCache then GoResult.ok (none, mapInsert frontendAttrs "no-cache" "")
    else GoResult.ok (none, frontendAttrs)

/-! ## Status fan-out (lines 244–257 of `build.go`)

The forwarding goroutine is the exclusive reader of `ch` and the
exclusive writer of `displayCh`, so its behaviour is the sequential
trace of its loop body: receive an event, attempt to encode it to the
trace file (logging the error on failure), send it to the display
channel; after the inbound channel is exhausted, the deferred
`close(displayCh)` runs and the goroutine returns `nil`. -/

/-- Observable actions of the forwarding goroutine. -/
inductive FanAct (α : Type) where
  | recv : α → FanAct α
  | logError : α → FanAct α
  | send : α → FanAct α
  | closeDisplay : FanAct α
  deriving Repr

/-- Action trace of the forwarding goroutine on a finite inbound
sequence; `encodeOk s` tells whether `traceEnc.Encode(s)` succeeds. -/
def traceForwardActs {α : Type} (encodeOk : α → Bool) : List α → List (FanAct α)
  | [] => [FanAct.closeDisplay]
  | s :: rest =>
    FanAct.recv s ::
      ((if encodeOk s then [] else [FanAct.logError s]) ++
        FanAct.send s :: traceForwardActs encodeOk rest)

/-- The forwarding goroutine: its action trace and its Go return value
(the literal `return nil` at the end of the loop body). -/
def traceForward {α : Type} (encodeOk : α → Bool) (events : List α) :
    List (FanAct α) × Option String :=
  (traceForwardActs encodeOk events, none)

/-- Events sent to the display channel, in order. -/
def sentEvents {α : Type} : List (FanAct α) → List α
  | [] => []
  | FanAct.send s :: rest => s :: sentEvents rest
  | _ :: rest => sentEvents rest

/-- Number of `closeDisplay` actions in a trace. -/
def closeCount {α : Type} : List (FanAct α) → Nat
  | [] => 0
  | FanAct.closeDisplay :: rest => 1 + closeCount rest
  | _ :: rest => closeCount rest

example : resolveExporterOutput ⟨fun _ => StatRes.notExist, fun _ => true, false⟩ "local" "" =
    GoResult.error "output directory is required for local exporter" := by rfl
example : resolveExporterOutput ⟨fun _ => StatRes.ok true, fun _ => true, false⟩ "oci" "d" =
    GoResult.error "destination file is a directory" := by rfl
example : resolveExporterOutput ⟨fun _ => StatRes.notExist, fun _ => true, false⟩ "oci" "f" =
    GoResult.ok (some (Handle.file "f"), "") := by rfl
example : resolveExporterOutput ⟨fun _ => StatRes.notExist, fun _ => true, true⟩ "oci" "" =
    GoResult.error "output file is required for oci exporter. refusing to write to console" := by rfl
example : traceForward (fun n => n == 1) [1, 2] =
    ([FanAct.recv 1, FanAct.send 1, FanAct.recv 2, FanAct.logError 2, FanAct.send 2,
      FanAct.closeDisplay], none) := by rfl

/-! ## Lemmas on the Go-map model -/

theorem find?_mapInsert_hit (m : List (String × String)) (k v : String)
    (h : m.any (fun p => p.1 == k) = true) :
    (m.map (fun p => if p.1 == k then (k, v) else p)).find? (fun p => p.1 == k) = some (k, v) := by
  induction m with
  | nil => simp at h
  | cons q m ih =>
    by_cases hq : q.1 = k
    · simp only [List.map_cons]
      rw [List.find?_cons_of_pos _ (by simp [hq])]
      simp [hq]
    · have hq' : (q.1 == k) = false := beq_eq_false_iff_ne.mpr hq
      simp only [List.any_cons, hq', Bool.false_or] at h
      simp only [List.map_cons]
      rw [List.find?_cons_of_neg _ (by simp [hq])]
      exact ih h

theorem find?_mapInsert_miss (m : List (String × String)) (k v k' : String) (h : k' ≠ k) :
    (m.map (fun p => if p.1 == k then (k, v) else p)).find? (fun p => p.1 == k') =
      m.find? (fun p => p.1 == k') := by
  have hkk' : (k == k') = false := beq_eq_false_iff_ne.mpr (Ne.symm h)
  induction m with
  | nil => simp
  | cons q m ih =>
    by_cases hq : q.1 = k
    · simp only [List.map_cons]
      rw [List.find?_cons_of_neg _ (by simp [hq, hkk']),
        List.find?_cons_of_neg _ (by simp [hq, Ne.symm h])]
      exact ih
    · by_cases hq2 : q.1 = k'
      · simp only [List.map_cons]
        rw [List.find?_cons_of_pos _ (by simp [hq, hq2, h]),
          List.find?_cons_of_pos _ (by simp [hq2])]
        simp [hq]
      · simp only [List.map_cons]
        rw [List.find?_cons_of_neg _ (by simp [hq, hq2]),
          List.find?_cons_of_neg _ (by simp [hq2])]
        exact ih

/-- Go-map insert / read: reading the inserted key gives the new value,
any other key is unchanged. -/
theorem mapLookup_mapInsert (m : List (String × String)) (k v k' : String) :
    mapLookup (mapInsert m k v) k' = if k' = k then some v else mapLookup m k' := by
  cases hany : m.any (fun p => p.1 == k) with
  | true =>
    have hins : mapInsert m k v = m.map (fun p => if p.1 == k then (k, v) else p) := by
      simp only [mapInsert, hany, if_pos]
    by_cases hk : k' = k
    · subst hk
      rw [hins]
      unfold mapLookup
      rw [find?_mapInsert_hit m k' v hany]
      simp
    · rw [hins]
      unfold mapLookup
      rw [find?_mapInsert_miss m k v k' hk]
      simp [hk]
  | false =>
    have hins : mapInsert m k v = m ++ [(k, v)] := by
      simp only [mapInsert, hany, Bool.false_eq_true, if_false]
    rw [hins]
    unfold mapLookup
    rw [List.find?_append]
    by_cases hk : k' = k
    · subst hk
      have hnone : m.find? (fun p => p.1 == k') = none := by
        rw [List.find?_eq_none]
        intro x hx
        have hx2 := List.any_eq_false.mp hany x hx
        simpa using hx2
      simp [hnone]
    · have hkk : (k == k') = false := beq_eq_false_iff_ne.mpr (Ne.symm hk)
      simp [hk, hkk, Option.or_none]

/-- Go-map delete / read: the deleted key reads as absent, others unchanged. -/
theorem mapLookup_mapDelete (m : List (String × String)) (k k' : String) :
    mapLookup (mapDelete m k) k' = if k' = k then none else mapLookup m k' := by
  induction m with
  | nil => simp [mapDelete, mapLookup]
  | cons q m ih =>
    by_cases hq : q.1 = k
    · have hdel : mapDelete (q :: m) k = mapDelete m k := by
        simp [mapDelete, hq]
      rw [hdel, ih]
      by_cases hk : k' = k
      · simp [hk]
      · have hq2 : (q.1 == k') = false := by
          rw [hq]; exact beq_eq_false_iff_ne.mpr (Ne.symm hk)
        have e2 : mapLookup (q :: m) k' = mapLookup m k' := by
          unfold mapLookup
          rw [List.find?_cons_of_neg _ (by simp [hq2])]
        rw [e2]
    · have hq' : (q.1 == k) = false := beq_eq_false_iff_ne.mpr hq
      have hdel : mapDelete (q :: m) k = q :: mapDelete m k := by
        simp [mapDelete, hq']
      rw [hdel]
      by_cases hq2 : q.1 = k'
      · have hk : ¬ k' = k := fun hh => hq (hq2.trans hh)
        have e1 : mapLookup (q :: mapDelete m k) k' = some q.2 := by
          unfold mapLookup
          rw [List.find?_cons_of_pos _ (by simp [hq2])]
          rfl
        have e2 : mapLookup (q :: m) k' = some q.2 := by
          unfold mapLookup
          rw [List.find?_cons_of_pos _ (by simp [hq2])]
          rfl
        rw [e1, e2, if_neg hk]
      · have hq2' : (q.1 == k') = false := beq_eq_false_iff_ne.mpr hq2
        have e1 : mapLookup (q :: mapDelete m k) k' = mapLookup (mapDelete m k) k' := by
          unfold mapLookup
          rw [List.find?_cons_of_neg _ (by simp [hq2'])]
        have e2 : mapLookup (q :: m) k' = mapLookup m k' := by
          unfold mapLookup
          rw [List.find?_cons_of_neg _ (by simp [hq2'])]
        rw [e1, e2, ih]

/-- Go-map membership agrees with lookup success. -/
theorem mapContains_eq_isSome (m : List (String × String)) (k : String) :
    mapContains m k = (mapLookup m k).isSome := by
  induction m with
  | nil => simp [mapContains, mapLookup]
  | cons q m ih =>
    by_cases hq : q.1 = k
    · have e : mapLookup (q :: m) k = some q.2 := by
        unfold mapLookup
        rw [List.find?_cons_of_pos _ (by simp [hq])]
        rfl
      simp [mapContains, hq, e]
    · have hq' : (q.1 == k) = false := beq_eq_false_iff_ne.mpr hq
      have e : mapLookup (q :: m) k = mapLookup m k := by
        unfold mapLookup
        rw [List.find?_cons_of_neg _ (by simp [hq'])]
      simp only [mapContains, List.any_cons, hq', Bool.false_or, e]
      exact ih

/-! ## Lemmas on the Go-string and CSV model -/

theorem strAsString (s : String) : s.data.asString = s := by
  cases s
  rfl

/-- Characters that are inert for the default CSV reader. -/
def plainChar (c : Char) : Bool :=
  !(c == ',' || c == '"' || c == '\n' || c == '\r')

/-- A string the CSV reader passes through as a single field. -/
def plainStr (s : String) : Bool := s.data.all plainChar

theorem not_mem_of_all_plain (l : List Char)
    (h : l.all plainChar = true) : ',' ∉ l ∧ '"' ∉ l ∧ '\n' ∉ l ∧ '\r' ∉ l := by
  refine ⟨fun hm => ?_, fun hm => ?_, fun hm => ?_, fun hm => ?_⟩ <;>
    exact absurd (List.all_eq_true.mp h _ hm) (by decide)

theorem charIdx_eq_none (c : Char) (l : List Char) (h : c ∉ l) : charIdx c l = none := by
  induction l with
  | nil => rfl
  | cons a t ih =>
    have ha : (a == c) = false :=
      beq_eq_false_iff_ne.mpr (fun hh => h (hh ▸ List.mem_cons_self a t))
    simp [charIdx, ha, ih (fun hm => h (List.mem_cons_of_mem a hm))]

theorem charIdx_append_cons (c : Char) (l r : List Char) (h : c ∉ l) :
    charIdx c (l ++ c :: r) = some l.length := by
  induction l with
  | nil => simp [charIdx]
  | cons a t ih =>
    have ha : (a == c) = false :=
      beq_eq_false_iff_ne.mpr (fun hh => h (hh ▸ List.mem_cons_self a t))
    simp [charIdx, ha, ih (fun hm => h (List.mem_cons_of_mem a hm))]

theorem contains_quote_false (l : List Char) (h : '"' ∉ l) : l.contains '"' = false := by
  rw [List.contains_eq_any_beq]
  exact List.any_eq_false.mpr (fun x hx hb => h (by rw [eq_of_beq hb]; exact hx))

theorem readLineAux_no_nl (l : List Char) (h : '\n' ∉ l) : readLineAux l = (l, []) := by
  induction l with
  | nil => rfl
  | cons a t ih =>
    have ha : ¬ a = '\n' := fun hh => h (hh ▸ List.mem_cons_self a t)
    simp [readLineAux, ha, ih (fun hm => h (List.mem_cons_of_mem a hm))]

theorem lengthNL_no_nl (l : List Char) (h : '\n' ∉ l) : lengthNL l = 0 := by
  unfold lengthNL
  cases hl : l.getLast? with
  | none => rfl
  | some c =>
    obtain ⟨hne, hc⟩ := List.mem_getLast?_eq_getLast (Option.mem_def.mpr hl)
    have hcm : c ∈ l := hc ▸ List.getLast_mem hne
    have : ¬ c = '\n' := fun hh => h (hh ▸ hcm)
    simp [this]

theorem normNL_no_nl (l : List Char) (h : '\n' ∉ l) : normNL l = l := by
  unfold normNL
  rw [if_neg]
  rintro ⟨-, h2, -⟩
  obtain ⟨hne, hc⟩ := List.mem_getLast?_eq_getLast (Option.mem_def.mpr h2)
  exact h (hc ▸ List.getLast_mem hne)

theorem readLine_no_nl (l : List Char) (hne : l ≠ []) (h : '\n' ∉ l) (hr : '\r' ∉ l) :
    readLine l = some (l, []) := by
  cases l with
  | nil => exact absurd rfl hne
  | cons a t =>
    unfold readLine
    rw [readLineAux_no_nl _ h]
    show some (normNL (if ([] : List Char) = [] ∧ (a :: t).getLast? = some '\r'
        then (a :: t).dropLast else (a :: t)), ([] : List Char)) = some (a :: t, [])
    rw [if_neg]
    · rw [normNL_no_nl _ h]
    · rintro ⟨-, h2⟩
      obtain ⟨hne2, hc⟩ := List.mem_getLast?_eq_getLast (Option.mem_def.mpr h2)
      exact hr (hc ▸ List.getLast_mem hne2)

theorem csvSkipBlank_plain (n : Nat) (cs : List Char) (hne : cs ≠ []) (hnl : '\n' ∉ cs)
    (hcr : '\r' ∉ cs) :
    csvSkipBlank (n + 1) cs = some (cs, []) := by
  unfold csvSkipBlank
  rw [readLine_no_nl cs hne hnl hcr]
  show (if cs.length = lengthNL cs then csvSkipBlank n [] else some (cs, [])) = some (cs, [])
  rw [lengthNL_no_nl cs hnl]
  rw [if_neg]
  simpa using hne

theorem csvLoop_plain_field (fuel : Nat) (cs : List Char) (record : List String)
    (hq : '"' ∉ cs) (hc : ',' ∉ cs) (hn : '\n' ∉ cs) :
    csvLoop (fuel + 1) CsvMode.field cs [] record = Except.ok (record ++ [cs.asString]) := by
  have hhead : ¬ (cs.headD ' ' = '"') := by
    cases cs with
    | nil => decide
    | cons a t =>
      simp only [List.headD_cons]
      exact fun hh => hq (hh ▸ List.mem_cons_self a t)
  unfold csvLoop
  rw [if_neg hhead]
  rw [charIdx_eq_none ',' cs hc]
  show (if (cs.take (cs.length - lengthNL cs)).contains '"' = true then Except.error CsvErr.bareQuote
      else Except.ok (record ++ [(cs.take (cs.length - lengthNL cs)).asString])) = _
  rw [lengthNL_no_nl cs hn, Nat.sub_zero, List.take_length]
  rw [contains_quote_false cs hq]
  simp

theorem csvRead_plain (s : String) (hne : s.data ≠ []) (hp : plainStr s = true) :
    csvRead s = Except.ok [s] := by
  obtain ⟨hcomma, hquote, hnl, hcr⟩ := not_mem_of_all_plain s.data hp
  unfold csvRead
  rw [csvSkipBlank_plain s.length s.data hne hnl hcr]
  show csvLoop (2 * s.length + 8) CsvMode.field s.data [] [] = Except.ok [s]
  rw [show 2 * s.length + 8 = (2 * s.length + 7) + 1 from rfl]
  rw [csvLoop_plain_field _ s.data [] hquote hcomma hnl]
  rw [strAsString]
  simp

theorem splitN2Eq_no_eq (s : String) (h : '=' ∉ s.data) : splitN2Eq s = [s] := by
  unfold splitN2Eq
  rw [charIdx_eq_none _ _ h]

theorem splitN2Eq_split (k v : String) (hk : '=' ∉ k.data) :
    splitN2Eq (k ++ "=" ++ v) = [k, v] := by
  unfold splitN2Eq
  have hdata : (k ++ "=" ++ v).data = k.data ++ '=' :: v.data := by
    simp
  rw [hdata, charIdx_append_cons '=' k.data v.data hk]
  have htake : (k.data ++ '=' :: v.data).take k.data.length = k.data := List.take_left _ _
  have hdrop : (k.data ++ '=' :: v.data).drop (k.data.length + 1) = v.data := by
    rw [List.append_cons k.data '=' v.data]
    exact List.drop_left' (by simp)
  show [((k.data ++ '=' :: v.data).take k.data.length).asString,
      ((k.data ++ '=' :: v.data).drop (k.data.length + 1)).asString] = [k, v]
  rw [htake, hdrop, strAsString, strAsString]

/-! ## Characterizing the cache CSV field loop -/

/-- The value a well-formed field assigns to the case-folded key `key`. -/
def keyFieldValue (key field : String) : Option String :=
  match splitN2Eq field with
  | [k, v] => if goToLower k == key then some v else none
  | _ => none

/-- The value of the last field whose case-folded key is `key`. -/
def lastKeyVal (key : String) : List String → Option String
  | [] => none
  | f :: rest =>
    match lastKeyVal key rest with
    | some w => some w
    | none => keyFieldValue key f

/-- On well-formed fields the cache field loop succeeds; the final
`Type` is the last `type` field (else the initial one), and each
attribute key holds the last field with that case-folded key (else the
initial attribute value). -/
theorem cacheEntryFields_ok (fields : List String) (e : CacheOptionsEntry)
    (hwf : ∀ f ∈ fields, (splitN2Eq f).length = 2) :
    ∃ e', cacheEntryFields e fields = GoResult.ok e' ∧
      e'.Type_ = (lastKeyVal "type" fields).getD e.Type_ ∧
      ∀ key : String, key ≠ "type" →
        mapLookup e'.Attrs key =
          ((lastKeyVal key fields).map some).getD (mapLookup e.Attrs key) := by
  induction fields generalizing e with
  | nil => exact ⟨e, rfl, by simp [lastKeyVal], fun key _ => by simp [lastKeyVal]⟩
  | cons f fs ih =>
    obtain ⟨k, v, hkv⟩ := List.length_eq_two.mp (hwf f (List.mem_cons_self f fs))
    have hwf' : ∀ g ∈ fs, (splitN2Eq g).length = 2 :=
      fun g hg => hwf g (List.mem_cons_of_mem f hg)
    by_cases ht : goToLower k = "type"
    · have hstep : cacheEntryField e f = GoResult.ok { e with Type_ := v } := by
        unfold cacheEntryField
        rw [hkv]
        simp [ht]
      have hkf : keyFieldValue "type" f = some v := by
        unfold keyFieldValue
        rw [hkv]
        simp [ht]
      obtain ⟨e', he', hty, hattrs⟩ := ih { e with Type_ := v } hwf'
      refine ⟨e', ?_, ?_, ?_⟩
      · unfold cacheEntryFields
        rw [hstep]
        exact he'
      · rw [hty]
        cases hl : lastKeyVal "type" fs with
        | some w => simp [lastKeyVal, hl]
        | none => simp [lastKeyVal, hl, hkf]
      · intro key hk
        have hkf2 : keyFieldValue key f = none := by
          unfold keyFieldValue
          rw [hkv]
          simp [ht, Ne.symm hk]
        have := hattrs key hk
        cases hl : lastKeyVal key fs with
        | some w => rw [hl] at this; simpa [lastKeyVal, hl] using this
        | none => rw [hl] at this; simpa [lastKeyVal, hl, hkf2] using this
    · have hstep : cacheEntryField e f =
          GoResult.ok { e with Attrs := mapInsert e.Attrs (goToLower k) v } := by
        unfold cacheEntryField
        rw [hkv]
        simp [ht]
      have hkf : keyFieldValue "type" f = none := by
        unfold keyFieldValue
        rw [hkv]
        simp [ht]
      obtain ⟨e', he', hty, hattrs⟩ := ih { e with Attrs := mapInsert e.Attrs (goToLower k) v } hwf'
      refine ⟨e', ?_, ?_, ?_⟩
      · unfold cacheEntryFields
        rw [hstep]
        exact he'
      · rw [hty]
        cases hl : lastKeyVal "type" fs with
        | some w => simp [lastKeyVal, hl]
        | none => simp [lastKeyVal, hl, hkf]
      · intro key hk
        have := hattrs key hk
        cases hl : lastKeyVal key fs with
        | some w => rw [hl] at this; simpa [lastKeyVal, hl] using this
        | none =>
          rw [hl] at this
          by_cases hkk : goToLower k = key
          · have hkf2 : keyFieldValue key f = some v := by
              unfold keyFieldValue
              rw [hkv]
              simp [hkk]
            rw [mapLookup_mapInsert, hkk, if_pos rfl] at this
            simpa [lastKeyVal, hl, hkf2] using this
          · have hkf2 : keyFieldValue key f = none := by
              unfold keyFieldValue
              rw [hkv]
              simp [hkk]
            rw [mapLookup_mapInsert, if_neg (fun hh => hkk hh.symm)] at this
            simpa [lastKeyVal, hl, hkf2] using this

/-- Full characterization of `parseExportCacheCSV` on well-formed
fields with a non-empty `type`: the entry's `Type` is the last `type`
field's value, `mode` defaults to `"min"` exactly when no `mode` field
is present, and every other attribute is the last field with that key. -/
theorem parseExportCacheCSV_ok (s : String) (fields : List String)
    (hcsv : csvRead s = Except.ok fields)
    (hwf : ∀ f ∈ fields, (splitN2Eq f).length = 2)
    (v : String) (hv : lastKeyVal "type" fields = some v) (hvne : v ≠ "") :
    ∃ e, parseExportCacheCSV s = GoResult.ok e ∧ e.Type_ = v ∧
      mapLookup e.Attrs "mode" = ((lastKeyVal "mode" fields).map some).getD (some "min") ∧
      ∀ key, key ≠ "type" → key ≠ "mode" →
        mapLookup e.Attrs key = ((lastKeyVal key fields).map some).getD none := by
  obtain ⟨e', he', hty, hattrs⟩ := cacheEntryFields_ok fields ⟨"", []⟩ hwf
  have htyv : e'.Type_ = v := by rw [hty, hv]; rfl
  have hmode : mapLookup e'.Attrs "mode" = ((lastKeyVal "mode" fields).map some).getD none :=
    hattrs "mode" (by decide)
  have hres : parseExportCacheCSV s =
      (if mapContains e'.Attrs "mode" then GoResult.ok e'
       else GoResult.ok { e' with Attrs := mapInsert e'.Attrs "mode" "min" }) := by
    unfold parseExportCacheCSV
    rw [hcsv]
    show (match cacheEntryFields ⟨"", []⟩ fields with
          | GoResult.ok ex =>
            if ex.Type_ == "" then GoResult.error "--export-cache requires type=<type>"
            else if mapContains ex.Attrs "mode" then GoResult.ok ex
            else GoResult.ok { ex with Attrs := mapInsert ex.Attrs "mode" "min" }
          | GoResult.error m => GoResult.error m
          | GoResult.crash m => GoResult.crash m) = _
    rw [he']
    show (if e'.Type_ == "" then GoResult.error "--export-cache requires type=<type>"
          else if mapContains e'.Attrs "mode" then GoResult.ok e'
          else GoResult.ok { e' with Attrs := mapInsert e'.Attrs "mode" "min" }) = _
    rw [htyv, if_neg (by simp [hvne])]
  cases hl : lastKeyVal "mode" fields with
  | some w =>
    have hms : mapLookup e'.Attrs "mode" = some w := by rw [hmode, hl]; rfl
    have hcont : mapContains e'.Attrs "mode" = true := by
      rw [mapContains_eq_isSome, hms]; rfl
    refine ⟨e', ?_, htyv, ?_, ?_⟩
    · rw [hres, if_pos hcont]
    · rw [hms]
      simp
    · intro key hk1 hk2
      exact hattrs key hk1
  | none =>
    have hmn : mapLookup e'.Attrs "mode" = none := by rw [hmode, hl]; rfl
    have hcont : mapContains e'.Attrs "mode" = false := by
      rw [mapContains_eq_isSome, hmn]; rfl
    refine ⟨{ e' with Attrs := mapInsert e'.Attrs "mode" "min" }, ?_, htyv, ?_, ?_⟩
    · rw [hres, hcont]; rfl
    · show mapLookup (mapInsert e'.Attrs "mode" "min") "mode" = _
      rw [mapLookup_mapInsert, if_pos rfl]
      simp
    · intro key hk1 hk2
      show mapLookup (mapInsert e'.Attrs "mode" "min") key = _
      rw [mapLookup_mapInsert, if_neg hk2]
      exact hattrs key hk1

/-- Shared helper: `parseExportCache` on a single legacy spec (no
`type=` substring) with well-formed companion options: deprecation
warning, kind `registry`, mode defaulted, `ref` set to the spec string. -/
theorem parseExportCache_legacy_single (legacyOpts : List String) (s : String)
    (m : List (String × String)) (hc : strContains s "type=" = false)
    (hm : attrMap legacyOpts = GoResult.ok m) :
    parseExportCache [s] legacyOpts =
      ([exportCacheDeprecationWarning],
        GoResult.ok [⟨"registry",
          mapInsert (if mapContains m "mode" then m else mapInsert m "mode" "min") "ref" s⟩]) := by
  simp [parseExportCache, parseExportCacheLoop, hc, hm]

/-! ## Claim theorems -/

/-- **C1** (code bug in the source): the spec requires a comma-separated
field with no `=` to make parsing fail with a descriptive parse error in
the cache parsers and in the secret parser. `parseSecret` indeed returns
an error, but `parseExportCacheCSV` and `parseImportCacheCSV` read
`parts[1]` before checking that the field contained a `=`, so the field
`foo` in `type=registry,foo` makes them panic with an out-of-range
index instead of returning an error. -/
theorem C1_field_without_eq :
    parseExportCacheCSV "type=registry,foo" = GoResult.crash "runtime error: index out of range" ∧
    parseImportCacheCSV "type=registry,foo" = GoResult.crash "runtime error: index out of range" ∧
    parseSecret "foo" = GoResult.error "invalid field foo must be a key=value pair" :=
  ⟨by rfl, by rfl, by rfl⟩

/-- **C2** counterexample: the claim says a field whose key is `kind`
sets the record kind, so `kind=registry` should parse to a record with
kind `registry`; the code only recognizes `type`, treats `kind` as an
ordinary attribute, and fails with the missing-type error. The claim
also says a case-folded `type` key selects structured mode, but the
mode check is a case-sensitive substring test, so `TYPE=local` falls
into legacy mode: a deprecation warning, kind `registry` (not `local`),
and the whole string as `ref`. -/
theorem C2_kind_counterexample :
    parseExportCacheCSV "kind=registry" = GoResult.error "--export-cache requires type=<type>" ∧
    parseExportCache ["TYPE=local"] [] =
      ([exportCacheDeprecationWarning],
        GoResult.ok [⟨"registry", [("mode", "min"), ("ref", "TYPE=local")]⟩]) :=
  ⟨by rfl, by rfl⟩

/-- **C2** (amended): for every option string whose fields are all
well-formed `key=value` pairs and that contains a field whose
case-folded key is `type` with a non-empty value, `parseExportCacheCSV`
returns a record whose kind equals the last such field's value,
regardless of where the field appears; `kind` is not recognized.
Structured mode is selected by the literal substring `type=`: when it
is present, `parseExportCache` uses `parseExportCacheCSV` and emits no
deprecation warning. -/
theorem C2_type_field_sets_kind (s : String) (fields : List String) (v : String)
    (hcsv : csvRead s = Except.ok fields)
    (hwf : ∀ f ∈ fields, (splitN2Eq f).length = 2)
    (hv : lastKeyVal "type" fields = some v) (hvne : v ≠ "") :
    (∃ e, parseExportCacheCSV s = GoResult.ok e ∧ e.Type_ = v) ∧
    (strContains s "type=" = true →
      parseExportCache [s] [] =
        ([], match parseExportCacheCSV s with
             | GoResult.ok e => GoResult.ok [e]
             | GoResult.error m => GoResult.error m
             | GoResult.crash m => GoResult.crash m)) := by
  constructor
  · obtain ⟨e, he, hty, -, -⟩ := parseExportCacheCSV_ok s fields hcsv hwf v hv hvne
    exact ⟨e, he, hty⟩
  · intro hc
    cases hres : parseExportCacheCSV s with
    | ok e => simp [parseExportCache, parseExportCacheLoop, hc, hres]
    | error m => simp [parseExportCache, parseExportCacheLoop, hc, hres]
    | crash m => simp [parseExportCache, parseExportCacheLoop, hc, hres]

/-- Witness for C2: `ref=x,type=registry` puts the `type` field last and
still yields kind `registry`. -/
theorem C2_type_field_sets_kind_witness :
    ∃ e, parseExportCacheCSV "ref=x,type=registry" = GoResult.ok e ∧ e.Type_ = "registry" :=
  (C2_type_field_sets_kind "ref=x,type=registry" ["ref=x", "type=registry"] "registry"
    (by rfl) (by decide) (by rfl) (by decide)).1

/-- **C3**: with the deprecated companion list present, more than one
`--export-cache` spec is a validation error, and so is a single
structured-mode spec; a single legacy-mode spec parses with a
deprecation warning, kind `registry`, the spec string as the `ref`
attribute, and the companion pairs merged into the attributes. -/
theorem C3_legacy_companion (legacyOpts exportCaches : List String) (s1 s2 : String)
    (m : List (String × String)) :
    (legacyOpts ≠ [] → exportCaches.length > 1 →
      parseExportCache exportCaches legacyOpts =
        ([], GoResult.error "--export-cache-opt requires exactly single --export-cache")) ∧
    (legacyOpts ≠ [] → strContains s1 "type=" = true →
      parseExportCache [s1] legacyOpts =
        ([], GoResult.error "--export-cache-opt is not supported for the specified --export-cache. Please use --export-cache type=<type>,<opt>=<optval>[,<opt>=<optval>] instead.")) ∧
    (strContains s2 "type=" = false → attrMap legacyOpts = GoResult.ok m →
      parseExportCache [s2] legacyOpts =
        ([exportCacheDeprecationWarning],
          GoResult.ok [⟨"registry",
            mapInsert (if mapContains m "mode" then m else mapInsert m "mode" "min") "ref" s2⟩]) ∧
      mapLookup (mapInsert (if mapContains m "mode" then m else mapInsert m "mode" "min") "ref" s2)
        "ref" = some s2 ∧
      ∀ k, k ≠ "ref" → k ≠ "mode" →
        mapLookup (mapInsert (if mapContains m "mode" then m else mapInsert m "mode" "min") "ref" s2)
          k = mapLookup m k) := by
  refine ⟨?_, ?_, ?_⟩
  · intro h1 h2
    have hne : exportCaches.length ≠ 1 := by omega
    simp [parseExportCache, hne, List.length_pos.mpr h1]
  · intro h1 hc
    simp [parseExportCache, parseExportCacheLoop, hc, List.length_pos.mpr h1]
  · intro hc hm
    refine ⟨parseExportCache_legacy_single legacyOpts s2 m hc hm, ?_, ?_⟩
    · rw [mapLookup_mapInsert, if_pos rfl]
    · intro k hk1 hk2
      rw [mapLookup_mapInsert, if_neg hk1]
      cases hcm : mapContains m "mode" with
      | true => simp
      | false =>
        simp only [Bool.false_eq_true, if_false]
        rw [mapLookup_mapInsert, if_neg hk2]

/-- Witness for C3: two specs with companion opts; a structured spec
with companion opts; a legacy spec with companion opts. -/
theorem C3_legacy_companion_witness :
    parseExportCache ["x", "y"] ["a=b"] =
      ([], GoResult.error "--export-cache-opt requires exactly single --export-cache") ∧
    parseExportCache ["type=registry,ref=r"] ["a=b"] =
      ([], GoResult.error "--export-cache-opt is not supported for the specified --export-cache. Please use --export-cache type=<type>,<opt>=<optval>[,<opt>=<optval>] instead.") ∧
    parseExportCache ["legacyref"] ["a=b"] =
      ([exportCacheDeprecationWarning],
        GoResult.ok [⟨"registry", [("a", "b"), ("mode", "min"), ("ref", "legacyref")]⟩]) := by
  have h := C3_legacy_companion ["a=b"] ["x", "y"] "type=registry,ref=r" "legacyref" [("a", "b")]
  exact ⟨h.1 (by decide) (by decide), h.2.1 (by decide) (by decide),
    (h.2.2 (by decide) (by rfl)).1⟩

/-- **C6**: a successfully parsed cache-export entry with no explicit
`mode` key gets `mode = "min"`; one with an explicit `mode` keeps it.
Structured mode: the `mode` attribute is the last `mode` field if any,
else `"min"`. Legacy mode: the `mode` attribute comes from the
companion pairs if present, else `"min"`. -/
theorem C6_mode_defaulting (s : String) (fields : List String)
    (hcsv : csvRead s = Except.ok fields)
    (hwf : ∀ f ∈ fields, (splitN2Eq f).length = 2)
    (v : String) (hv : lastKeyVal "type" fields = some v) (hvne : v ≠ "")
    (legacyOpts : List String) (ref : String) (m : List (String × String))
    (href : strContains ref "type=" = false) (hm : attrMap legacyOpts = GoResult.ok m) :
    (∃ e, parseExportCacheCSV s = GoResult.ok e ∧
      mapLookup e.Attrs "mode" = ((lastKeyVal "mode" fields).map some).getD (some "min")) ∧
    (∃ e, parseExportCache [ref] legacyOpts = ([exportCacheDeprecationWarning], GoResult.ok [e]) ∧
      mapLookup e.Attrs "mode" =
        if mapContains m "mode" then mapLookup m "mode" else some "min") := by
  constructor
  · obtain ⟨e, he, -, hmode, -⟩ := parseExportCacheCSV_ok s fields hcsv hwf v hv hvne
    exact ⟨e, he, hmode⟩
  · refine ⟨⟨"registry",
      mapInsert (if mapContains m "mode" then m else mapInsert m "mode" "min") "ref" ref⟩,
      parseExportCache_legacy_single legacyOpts ref m href hm, ?_⟩
    show mapLookup (mapInsert _ "ref" ref) "mode" = _
    rw [mapLookup_mapInsert, if_neg (by decide)]
    cases hcm : mapContains m "mode" with
    | true => simp
    | false =>
      simp only [Bool.false_eq_true, if_false]
      rw [mapLookup_mapInsert, if_pos rfl]

/-- Witness for C6: `type=registry` has no `mode` field and gets
`mode = "min"`; legacy companion `mode=max` is kept. -/
theorem C6_mode_defaulting_witness :
    (∃ e, parseExportCacheCSV "type=registry" = GoResult.ok e ∧
      mapLookup e.Attrs "mode" = some "min") ∧
    (∃ e, parseExportCache ["r"] ["mode=max"] = ([exportCacheDeprecationWarning], GoResult.ok [e]) ∧
      mapLookup e.Attrs "mode" = some "max") := by
  have h := C6_mode_defaulting "type=registry" ["type=registry"] (by rfl) (by decide)
    "registry" (by rfl) (by decide) ["mode=max"] "r" [("mode", "max")] (by decide) (by rfl)
  exact ⟨h.1, h.2⟩

/-- **C4**: single-archive exporters (OCI / Docker): a path naming an
existing directory is an error; a usable path yields the created file
handle and no directory; an empty path yields standard output unless
standard output is an interactive console, which is an error. -/
theorem C4_single_archive_output (env : OutEnv) (exporter output : String)
    (hex : exporter = ExporterOCI ∨ exporter = ExporterDocker) :
    (output ≠ "" → env.stat output = StatRes.ok true →
      resolveExporterOutput env exporter output =
        GoResult.error "destination file is a directory") ∧
    (output ≠ "" → (env.stat output = StatRes.notExist ∨ env.stat output = StatRes.ok false) →
      env.createOk output = true →
      resolveExporterOutput env exporter output = GoResult.ok (some (Handle.file output), "")) ∧
    (output = "" → env.stdoutIsConsole = false →
      resolveExporterOutput env exporter output = GoResult.ok (some Handle.stdout, "")) ∧
    (output = "" → env.stdoutIsConsole = true →
      resolveExporterOutput env exporter output =
        GoResult.error ("output file is required for " ++ exporter ++
          " exporter. refusing to write to console")) := by
  have hloc : (exporter == ExporterLocal) = false := by
    rcases hex with h | h <;> subst h <;> decide
  have harch : (exporter == ExporterOCI || exporter == ExporterDocker) = true := by
    rcases hex with h | h <;> subst h <;> decide
  refine ⟨?_, ?_, ?_, ?_⟩
  · intro h1 h2
    simp [resolveExporterOutput, hloc, harch, h1, h2]
  · intro h1 h2 h3
    rcases h2 with h2 | h2 <;> simp [resolveExporterOutput, hloc, harch, h1, h2, h3]
  · intro h1 h2
    simp [resolveExporterOutput, hloc, harch, h1, h2]
  · intro h1 h2
    simp [resolveExporterOutput, hloc, harch, h1, h2]

/-- Witness for C4: a concrete environment where `d` is a directory,
`f` is creatable, and standard output is not a console. -/
theorem C4_single_archive_output_witness :
    resolveExporterOutput ⟨fun p => if p = "d" then StatRes.ok true else StatRes.notExist,
      fun _ => true, false⟩ "oci" "d" = GoResult.error "destination file is a directory" ∧
    resolveExporterOutput ⟨fun p => if p = "d" then StatRes.ok true else StatRes.notExist,
      fun _ => true, false⟩ "oci" "f" = GoResult.ok (some (Handle.file "f"), "") ∧
    resolveExporterOutput ⟨fun p => if p = "d" then StatRes.ok true else StatRes.notExist,
      fun _ => true, false⟩ "docker" "" = GoResult.ok (some Handle.stdout, "") ∧
    resolveExporterOutput ⟨fun p => if p = "d" then StatRes.ok true else StatRes.notExist,
      fun _ => true, true⟩ "oci" "" =
      GoResult.error "output file is required for oci exporter. refusing to write to console" := by
  refine ⟨?_, ?_, ?_, ?_⟩
  · exact (C4_single_archive_output _ "oci" "d" (Or.inl rfl)).1 (by decide) (by simp)
  · exact (C4_single_archive_output _ "oci" "f" (Or.inl rfl)).2.1 (by decide)
      (Or.inl (by simp)) rfl
  · exact (C4_single_archive_output _ "docker" "" (Or.inr rfl)).2.2.1 rfl rfl
  · exact (C4_single_archive_output _ "oci" "" (Or.inl rfl)).2.2.2 rfl rfl

/-- **C7**: `resolveExporterOutput` never returns both a file handle and
a non-empty directory; the local exporter requires a path and returns it
verbatim as the directory with no handle; any exporter other than
local/OCI/Docker rejects a path and yields the none variant without one. -/
theorem C7_output_target_invariant (env : OutEnv) (exporter output : String) :
    (∀ w dir, resolveExporterOutput env exporter output = GoResult.ok (w, dir) →
      w = none ∨ dir = "") ∧
    (exporter = ExporterLocal → output = "" →
      resolveExporterOutput env exporter output =
        GoResult.error "output directory is required for local exporter") ∧
    (exporter = ExporterLocal → output ≠ "" →
      resolveExporterOutput env exporter output = GoResult.ok (none, output)) ∧
    (exporter ≠ ExporterLocal → exporter ≠ ExporterOCI → exporter ≠ ExporterDocker →
      (output ≠ "" → resolveExporterOutput env exporter output =
        GoResult.error ("output " ++ output ++ " is not supported by " ++ exporter ++ " exporter")) ∧
      (output = "" → resolveExporterOutput env exporter output = GoResult.ok (none, ""))) := by
  refine ⟨?_, ?_, ?_, ?_⟩
  · intro w dir hres
    unfold resolveExporterOutput at hres
    split at hres
    · split at hres
      · exact absurd hres (by simp)
      · exact Or.inl (by injection hres with h; injection h with h1 h2; exact h1.symm)
    · split at hres
      · split at hres
        · split at hres
          · exact absurd hres (by simp)
          · exact absurd hres (by simp)
          · split at hres
            · exact Or.inr (by injection hres with h; injection h with h1 h2; exact h2.symm)
            · exact absurd hres (by simp)
        · split at hres
          · exact absurd hres (by simp)
          · exact Or.inr (by injection hres with h; injection h with h1 h2; exact h2.symm)
      · split at hres
        · exact absurd hres (by simp)
        · exact Or.inl (by injection hres with h; injection h with h1 h2; exact h1.symm)
  · intro h1 h2
    subst h1
    simp [resolveExporterOutput, h2]
  · intro h1 h2
    subst h1
    simp [resolveExporterOutput, h2]
  · intro h1 h2 h3
    have hloc : (exporter == ExporterLocal) = false := beq_eq_false_iff_ne.mpr h1
    have harch : (exporter == ExporterOCI || exporter == ExporterDocker) = false := by
      simp [beq_eq_false_iff_ne.mpr h2, beq_eq_false_iff_ne.mpr h3]
    constructor
    · intro h4
      simp [resolveExporterOutput, hloc, harch, h4]
    · intro h4
      simp [resolveExporterOutput, hloc, harch, h4]

/-- Witness for C7: the local exporter with and without a path, and the
image exporter with and without a path. -/
theorem C7_output_target_invariant_witness :
    resolveExporterOutput ⟨fun _ => StatRes.notExist, fun _ => true, false⟩ "local" "" =
      GoResult.error "output directory is required for local exporter" ∧
    resolveExporterOutput ⟨fun _ => StatRes.notExist, fun _ => true, false⟩ "local" "out" =
      GoResult.ok (none, "out") ∧
    resolveExporterOutput ⟨fun _ => StatRes.notExist, fun _ => true, false⟩ "image" "out" =
      GoResult.error "output out is not supported by image exporter" ∧
    resolveExporterOutput ⟨fun _ => StatRes.notExist, fun _ => true, false⟩ "image" "" =
      GoResult.ok (none, "") := by
  refine ⟨?_, ?_, ?_, ?_⟩
  · exact (C7_output_target_invariant _ "local" "").2.1 rfl rfl
  · exact (C7_output_target_invariant _ "local" "out").2.2.1 rfl (by decide)
  · exact ((C7_output_target_invariant _ "image" "out").2.2.2 (by decide) (by decide)
      (by decide)).1 (by decide)
  · exact ((C7_output_target_invariant _ "image" "").2.2.2 (by decide) (by decide)
      (by decide)).2 rfl

/-- **C9**: with no frontend, an interactive stdin is an error, and an
empty definition read from stdin is an error; with a frontend and the
cache-disable flag set, the frontend attributes gain `no-cache` (other
attributes untouched) and no definition is produced. -/
theorem C9_frontend_stdin (frontend : String) (stdinIsCharDevice noCache : Bool)
    (readResult : GoResult (List Nat)) (fattrs : List (String × String)) :
    (frontend = "" → stdinIsCharDevice = true →
      buildFrontendStep frontend stdinIsCharDevice noCache readResult fattrs =
        GoResult.error "please specify --frontend or pipe LLB definition to stdin") ∧
    (frontend = "" → stdinIsCharDevice = false → readResult = GoResult.ok [] →
      buildFrontendStep frontend stdinIsCharDevice noCache readResult fattrs =
        GoResult.error "empty definition sent to build. Specify --frontend instead?") ∧
    (frontend ≠ "" → noCache = true →
      buildFrontendStep frontend stdinIsCharDevice noCache readResult fattrs =
        GoResult.ok (none, mapInsert fattrs "no-cache" "") ∧
      mapLookup (mapInsert fattrs "no-cache" "") "no-cache" = some "" ∧
      ∀ k, k ≠ "no-cache" →
        mapLookup (mapInsert fattrs "no-cache" "") k = mapLookup fattrs k) := by
  refine ⟨?_, ?_, ?_⟩
  · intro h1 h2
    simp [buildFrontendStep, h1, h2]
  · intro h1 h2 h3
    simp [buildFrontendStep, h1, h2, h3]
  · intro h1 h2
    refine ⟨by simp [buildFrontendStep, h1, h2], ?_, ?_⟩
    · rw [mapLookup_mapInsert, if_pos rfl]
    · intro k hk
      rw [mapLookup_mapInsert, if_neg hk]

/-- Witness for C9 at concrete inputs. -/
theorem C9_frontend_stdin_witness :
    buildFrontendStep "" true false (GoResult.ok [1]) [] =
      GoResult.error "please specify --frontend or pipe LLB definition to stdin" ∧
    buildFrontendStep "" false false (GoResult.ok []) [] =
      GoResult.error "empty definition sent to build. Specify --frontend instead?" ∧
    buildFrontendStep "gateway" false true (GoResult.ok []) [("opt", "1")] =
      GoResult.ok (none, [("opt", "1"), ("no-cache", "")]) := by
  refine ⟨?_, ?_, ?_⟩
  · exact (C9_frontend_stdin "" true false (GoResult.ok [1]) []).1 rfl rfl
  · exact (C9_frontend_stdin "" false false (GoResult.ok []) []).2.1 rfl rfl rfl
  · exact ((C9_frontend_stdin "gateway" false true (GoResult.ok []) [("opt", "1")]).2.2
      (by decide) rfl).1

/-- **C10**: after a successful output resolution, the `output` exporter
attribute is deleted exactly when a file handle or directory path was
produced, leaving every other attribute unchanged; otherwise the
attribute map is returned untouched. -/
theorem C10_output_attr_frame (env : OutEnv) (exporter : String)
    (attrs : List (String × String)) (w : Option Handle) (dir : String)
    (attrs' : List (String × String))
    (hres : buildExporterOutputStep env exporter attrs = GoResult.ok (w, dir, attrs')) :
    ((w.isSome = true ∨ dir ≠ "") →
      mapLookup attrs' "output" = none ∧
      ∀ k, k ≠ "output" → mapLookup attrs' k = mapLookup attrs k) ∧
    (w = none → dir = "" → attrs' = attrs) := by
  unfold buildExporterOutputStep at hres
  cases hr : resolveExporterOutput env exporter ((mapLookup attrs "output").getD "") with
  | ok p =>
    rw [hr] at hres
    obtain ⟨w0, dir0⟩ := p
    have hres2 : (if (w0.isSome || dir0 != "") = true
        then GoResult.ok (w0, dir0, mapDelete attrs "output")
        else GoResult.ok (w0, dir0, attrs)) = GoResult.ok (w, dir, attrs') := hres
    clear hres
    rename' hres2 => hres
    by_cases hcond : (w0.isSome || dir0 != "") = true
    · rw [if_pos hcond] at hres
      injection hres with h
      obtain ⟨hw, h2⟩ : w0 = w ∧ (dir0, mapDelete attrs "output") = (dir, attrs') := by
        injection h with h1 h2
        exact ⟨h1, h2⟩
      obtain ⟨hd, ha⟩ : dir0 = dir ∧ mapDelete attrs "output" = attrs' := by
        injection h2 with h1 h2
        exact ⟨h1, h2⟩
      subst hw
      subst hd
      subst ha
      constructor
      · intro _
        constructor
        · rw [mapLookup_mapDelete, if_pos rfl]
        · intro k hk
          rw [mapLookup_mapDelete, if_neg hk]
      · intro hwn hdn
        subst hwn
        rw [hdn] at hcond
        simp at hcond
    · rw [if_neg hcond] at hres
      injection hres with h
      obtain ⟨hw, h2⟩ : w0 = w ∧ (dir0, attrs) = (dir, attrs') := by
        injection h with h1 h2
        exact ⟨h1, h2⟩
      obtain ⟨hd, ha⟩ : dir0 = dir ∧ attrs = attrs' := by
        injection h2 with h1 h2
        exact ⟨h1, h2⟩
      subst hw
      subst hd
      subst ha
      constructor
      · intro hor
        exfalso
        rcases hor with hor | hor
        · simp [hor] at hcond
        · simp [bne_iff_ne, hor] at hcond
      · intro _ _
        rfl
  | error m =>
    rw [hr] at hres
    exact absurd hres (by simp)
  | crash m =>
    rw [hr] at hres
    exact absurd hres (by simp)

/-- Witness for C10: the OCI exporter with `output=f` deletes the
`output` key and keeps `name`; the image exporter with no output leaves
the attributes untouched. -/
theorem C10_output_attr_frame_witness :
    (mapLookup [("name", "n")] "output" = none ∧
      ∀ k, k ≠ "output" → mapLookup [("name", "n")] k =
        mapLookup [("output", "f"), ("name", "n")] k) ∧
    ([("name", "n")] : List (String × String)) = [("name", "n")] := by
  have h := C10_output_attr_frame ⟨fun _ => StatRes.notExist, fun _ => true, false⟩ "oci"
    [("output", "f"), ("name", "n")] (some (Handle.file "f")) "" [("name", "n")] (by rfl)
  have h2 := C10_output_attr_frame ⟨fun _ => StatRes.notExist, fun _ => true, false⟩ "image"
    [("name", "n")] none "" [("name", "n")] (by rfl)
  exact ⟨h.1 (Or.inl rfl), h2.2 rfl rfl⟩

/-! ## Lemmas on the fan-out trace -/

theorem traceForwardActs_ne_nil {α : Type} (f : α → Bool) (l : List α) :
    traceForwardActs f l ≠ [] := by
  cases l <;> simp [traceForwardActs]

theorem sentEvents_traceForwardActs {α : Type} (f : α → Bool) (l : List α) :
    sentEvents (traceForwardActs f l) = l := by
  induction l with
  | nil => rfl
  | cons s rest ih => cases h : f s <;> simp [traceForwardActs, sentEvents, h, ih]

theorem traceForwardActs_getLast {α : Type} (f : α → Bool) (l : List α) :
    (traceForwardActs f l).getLast? = some FanAct.closeDisplay := by
  induction l with
  | nil => rfl
  | cons s rest ih =>
    show (FanAct.recv s :: ((if f s then [] else [FanAct.logError s]) ++
        FanAct.send s :: traceForwardActs f rest)).getLast? = _
    rw [show FanAct.recv s :: ((if f s then [] else [FanAct.logError s]) ++
        FanAct.send s :: traceForwardActs f rest) =
        (FanAct.recv s :: (if f s then [] else [FanAct.logError s])) ++
          ([FanAct.send s] ++ traceForwardActs f rest) by simp]
    rw [List.getLast?_append_of_ne_nil _ (by simp)]
    rw [List.getLast?_append_of_ne_nil _ (traceForwardActs_ne_nil f rest)]
    exact ih

theorem closeCount_append {α : Type} (l1 l2 : List (FanAct α)) :
    closeCount (l1 ++ l2) = closeCount l1 + closeCount l2 := by
  induction l1 with
  | nil => simp [closeCount]
  | cons a t ih =>
    cases a <;> simp [closeCount, ih]
    all_goals omega

theorem closeCount_traceForwardActs {α : Type} (f : α → Bool) (l : List α) :
    closeCount (traceForwardActs f l) = 1 := by
  induction l with
  | nil => rfl
  | cons s rest ih =>
    cases h : f s <;> simp [traceForwardActs, closeCount, closeCount_append, h, ih]

theorem logError_mem_traceForwardActs {α : Type} (f : α → Bool) (l : List α) (s : α)
    (hs : s ∈ l) (hf : f s = false) : FanAct.logError s ∈ traceForwardActs f l := by
  induction l with
  | nil => cases hs
  | cons a t ih =>
    rcases List.mem_cons.mp hs with h | h
    · subst h
      simp [traceForwardActs, hf]
    · cases hfa : f a <;> simp [traceForwardActs, hfa, ih h]

/-- **C5**: the trace-forwarding stage sends every inbound event to the
display channel in order (independently of whether trace encoding
succeeds), closes the display channel exactly once, as the last action
after the inbound sequence is exhausted, logs every failed encode
without dropping the event, and always returns nil. -/
theorem C5_fanout_order {α : Type} (encodeOk : α → Bool) (events : List α) :
    sentEvents (traceForward encodeOk events).1 = events ∧
    (traceForward encodeOk events).1.getLast? = some FanAct.closeDisplay ∧
    closeCount (traceForward encodeOk events).1 = 1 ∧
    (∀ s, s ∈ events → encodeOk s = false →
      FanAct.logError s ∈ (traceForward encodeOk events).1) ∧
    (traceForward encodeOk events).2 = none :=
  ⟨sentEvents_traceForwardActs encodeOk events,
   traceForwardActs_getLast encodeOk events,
   closeCount_traceForwardActs encodeOk events,
   fun s hs hf => logError_mem_traceForwardActs encodeOk events s hs hf,
   rfl⟩

/-- Witness for C5: two events where encoding fails for the second; it
is logged and still delivered, in order, before the close. -/
theorem C5_fanout_order_witness :
    sentEvents (traceForward (fun n : Nat => n == 1) [1, 2]).1 = [1, 2] ∧
    FanAct.logError 2 ∈ (traceForward (fun n : Nat => n == 1) [1, 2]).1 ∧
    (traceForward (fun n : Nat => n == 1) [1, 2]).2 = none := by
  have h := C5_fanout_order (fun n : Nat => n == 1) [1, 2]
  exact ⟨h.1, h.2.2.2.1 2 (by decide) (by decide), h.2.2.2.2⟩

/-! ## Secret parsing helpers -/

theorem plainStr_append (a b : String) : plainStr (a ++ b) = (plainStr a && plainStr b) := by
  simp [plainStr, List.all_append]

/-- `secretField` on a field that splits into `[k, v]`. -/
theorem secretField_eq (fs : FileSource) (f k v : String) (hsplit : splitN2Eq f = [k, v]) :
    secretField fs f =
      (if goToLower k == "type" then
        (if v != "file" then GoResult.error ("unsupported secret type " ++ v) else GoResult.ok fs)
      else if goToLower k == "id" then GoResult.ok { fs with ID := v }
      else if goToLower k == "source" || goToLower k == "src" then
        GoResult.ok { fs with FilePath := v }
      else GoResult.error ("unexpected key " ++ goToLower k ++ " in " ++ f)) := by
  unfold secretField
  rw [hsplit]
  simp

/-- `parseSecret` on a plain single-field spec reduces to one
`secretField` step from the zero `FileSource`. -/
theorem parseSecret_single (f : String) (hne : f.data ≠ []) (hp : plainStr f = true) :
    parseSecret f =
      match secretField ⟨"", ""⟩ f with
      | GoResult.ok fs => GoResult.ok fs
      | GoResult.error m => GoResult.error m
      | GoResult.crash m => GoResult.crash m := by
  unfold parseSecret
  rw [csvRead_plain f hne hp]
  show secretFields ⟨"", ""⟩ [f] = _
  unfold secretFields
  cases h : secretField ⟨"", ""⟩ f <;> simp [secretFields]

/-- **C8**: `parseSecret` maps the example spec to the expected source;
a `type` value other than `file` is an unsupported-type error;
`source` and `src` both set the file path; any other key is an
unexpected-key error. The unknown-key clause quantifies over ASCII
keys, where the model's case folding is exactly Go `strings.ToLower`
(Go additionally folds e.g. U+0130 into the known key `id`). -/
theorem C8_parseSecret (v p k val : String) :
    parseSecret "type=file,id=mysecret,src=/tmp/x" = GoResult.ok ⟨"mysecret", "/tmp/x"⟩ ∧
    parseSecret "type=env,id=x" = GoResult.error "unsupported secret type env" ∧
    (plainStr v = true → v ≠ "file" →
      parseSecret ("type=" ++ v) = GoResult.error ("unsupported secret type " ++ v)) ∧
    (plainStr p = true →
      parseSecret ("src=" ++ p) = GoResult.ok ⟨"", p⟩ ∧
      parseSecret ("source=" ++ p) = GoResult.ok ⟨"", p⟩) ∧
    (asciiStr k = true → plainStr k = true → plainStr val = true → '=' ∉ k.data →
      goToLower k ∉ (["type", "id", "source", "src"] : List String) →
      parseSecret (k ++ "=" ++ val) =
        GoResult.error ("unexpected key " ++ goToLower k ++ " in " ++ (k ++ "=" ++ val))) := by
  refine ⟨by rfl, by rfl, ?_, ?_, ?_⟩
  · intro hv hvf
    have hne : ("type=" ++ v).data ≠ [] := by
      rw [String.data_append]
      intro hc
      exact absurd (List.append_eq_nil.mp hc).1 (by decide)
    have hplain : plainStr ("type=" ++ v) = true := by
      rw [plainStr_append, hv, (show plainStr "type=" = true by decide)]
      rfl
    have hsplit : splitN2Eq ("type=" ++ v) = ["type", v] := by
      rw [show ("type=" ++ v : String) = "type" ++ "=" ++ v from rfl]
      exact splitN2Eq_split "type" v (by decide)
    rw [parseSecret_single _ hne hplain, secretField_eq ⟨"", ""⟩ _ "type" v hsplit]
    simp [(show goToLower "type" = "type" from rfl), bne_iff_ne.mpr hvf]
  · intro hp
    constructor
    · have hne : ("src=" ++ p).data ≠ [] := by
        rw [String.data_append]
        intro hc
        exact absurd (List.append_eq_nil.mp hc).1 (by decide)
      have hplain : plainStr ("src=" ++ p) = true := by
        rw [plainStr_append, hp, (show plainStr "src=" = true by decide)]
        rfl
      have hsplit : splitN2Eq ("src=" ++ p) = ["src", p] := by
        rw [show ("src=" ++ p : String) = "src" ++ "=" ++ p from rfl]
        exact splitN2Eq_split "src" p (by decide)
      rw [parseSecret_single _ hne hplain, secretField_eq ⟨"", ""⟩ _ "src" p hsplit]
      simp [show goToLower "src" = "src" from rfl]
    · have hne : ("source=" ++ p).data ≠ [] := by
        rw [String.data_append]
        intro hc
        exact absurd (List.append_eq_nil.mp hc).1 (by decide)
      have hplain : plainStr ("source=" ++ p) = true := by
        rw [plainStr_append, hp, (show plainStr "source=" = true by decide)]
        rfl
      have hsplit : splitN2Eq ("source=" ++ p) = ["source", p] := by
        rw [show ("source=" ++ p : String) = "source" ++ "=" ++ p from rfl]
        exact splitN2Eq_split "source" p (by decide)
      rw [parseSecret_single _ hne hplain, secretField_eq ⟨"", ""⟩ _ "source" p hsplit]
      simp [show goToLower "source" = "source" from rfl]
  · intro _ hkp hvp hkeq hkl
    have hne : (k ++ "=" ++ val).data ≠ [] := by
      rw [String.data_append, String.data_append]
      intro hc
      exact absurd (List.append_eq_nil.mp (List.append_eq_nil.mp hc).1).2 (by decide)
    have hplain : plainStr (k ++ "=" ++ val) = true := by
      rw [plainStr_append, plainStr_append, hkp, hvp, (show plainStr "=" = true by decide)]
      rfl
    have hsplit : splitN2Eq (k ++ "=" ++ val) = [k, val] := splitN2Eq_split k val hkeq
    have h1 : (goToLower k == "type") = false :=
      beq_eq_false_iff_ne.mpr (fun hh => hkl (by rw [hh]; decide))
    have h2 : (goToLower k == "id") = false :=
      beq_eq_false_iff_ne.mpr (fun hh => hkl (by rw [hh]; decide))
    have h3 : (goToLower k == "source") = false :=
      beq_eq_false_iff_ne.mpr (fun hh => hkl (by rw [hh]; decide))
    have h4 : (goToLower k == "src") = false :=
      beq_eq_false_iff_ne.mpr (fun hh => hkl (by rw [hh]; decide))
    rw [parseSecret_single _ hne hplain, secretField_eq ⟨"", ""⟩ _ k val hsplit]
    simp [h1, h2, h3, h4]

/-- Witness for C8 at concrete inputs. -/
theorem C8_parseSecret_witness :
    parseSecret "type=file,id=mysecret,src=/tmp/x" = GoResult.ok ⟨"mysecret", "/tmp/x"⟩ ∧
    parseSecret "type=env" = GoResult.error "unsupported secret type env" ∧
    parseSecret "src=/tmp/y" = GoResult.ok ⟨"", "/tmp/y"⟩ ∧
    parseSecret "source=/tmp/y" = GoResult.ok ⟨"", "/tmp/y"⟩ ∧
    parseSecret "foo=bar" = GoResult.error "unexpected key foo in foo=bar" := by
  have h := C8_parseSecret "env" "/tmp/y" "foo" "bar"
  exact ⟨h.1, h.2.2.1 (by decide) (by decide), (h.2.2.2.1 (by decide)).1,
    (h.2.2.2.1 (by decide)).2,
    h.2.2.2.2 (by decide) (by decide) (by decide) (by decide) (by decide)⟩
